import Mathlib

/-!
Verification of the chunk-transcript timestamp reconciliation and merge core
(`src/index.tsx`): the timestamp parsers (`TIMESTAMP_PATTERN` / the classifier
line match), `detectIfAlreadyCorrected`, `sanitizeTimestamp`,
`correctTimestamps`, `mergeChunks`, and the merge route handler's
missing-chunk precondition.

Text is modelled as `List Char`.  JavaScript numbers are modelled as `Nat`/
`Int`: every quantity involved (milliseconds, seconds, indices, digit groups)
is a non-negative integer far below 2^53, where JS float arithmetic is exact;
`Math.floor(x * 0.1)` agrees with `x / 10` (Nat division) there as well.
-/

/-- Characters of a Lean string literal, used to write concrete inputs. -/
def str (s : String) : List Char := s.data

/-- JS regex `\d`: the ASCII digits. -/
def isDigitChar (c : Char) : Bool := 48 ≤ c.toNat && c.toNat ≤ 57

/-- Numeric value of an ASCII digit. -/
def digitVal (c : Char) : Nat := c.toNat - 48

/-- JS regex `\s` (also the class trimmed by `String.prototype.trimEnd`):
tab, LF, VT, FF, CR, space, NBSP, and the Unicode space separators. -/
def jsWhitespace (c : Char) : Bool :=
  let v := c.toNat
  v = 9 || v = 10 || v = 11 || v = 12 || v = 13 || v = 32 || v = 160 ||
    v = 0x1680 || (0x2000 ≤ v && v ≤ 0x200a) || v = 0x2028 || v = 0x2029 ||
    v = 0x202f || v = 0x205f || v = 0x3000 || v = 0xfeff

/-- JS regex LineTerminator: LF, CR, LS (U+2028), PS (U+2029).  With the `m`
flag, `^` matches at the text start and immediately after any of these. -/
def isLineTerminator (c : Char) : Bool :=
  let v := c.toNat
  v = 10 || v = 13 || v = 0x2028 || v = 0x2029

/-- Shared tail of both timestamp patterns: the value of
`(\d{2})(?::(\d{2}))?` given the already-read first group `p1`, the second
group `p2`, and the text after the second group.  If a third two-digit group
follows a colon the reading is `HH:MM:SS`, otherwise `MM:SS`. -/
def withOptional (p1 p2 : Nat) (rest : List Char) : Nat :=
  match rest with
  | c :: e :: f :: _ =>
    if c = ':' ∧ isDigitChar e ∧ isDigitChar f then
      p1 * 3600 + p2 * 60 + (digitVal e * 10 + digitVal f)
    else p1 * 60 + p2
  | _ => p1 * 60 + p2

/-- Core of `TIMESTAMP_PATTERN = /^\s*(\d{2}):(\d{2})(?::(\d{2}))?/` after the
leading whitespace: the first group must be exactly two digits. Result in
seconds. -/
def tsCoreMerge (u : List Char) : Option Nat :=
  match u with
  | a :: b :: rest =>
    if isDigitChar a ∧ isDigitChar b then
      match rest with
      | c :: d :: e :: rest2 =>
        if c = ':' ∧ isDigitChar d ∧ isDigitChar e then
          some (withOptional (digitVal a * 10 + digitVal b) (digitVal d * 10 + digitVal e) rest2)
        else none
      | _ => none
    else none
  | _ => none

/-- `getTimestampMs` from the source: match `TIMESTAMP_PATTERN` against the
line and convert to milliseconds. -/
def getTimestampMs (line : List Char) : Option Nat :=
  (tsCoreMerge (line.dropWhile jsWhitespace)).map (· * 1000)

/-- Core of the classifier's line match
`/^(\s*)(\d{1,2}):(\d{2})(?::(\d{2}))?/` after the leading whitespace: the
first group is one or two digits (greedy, two tried first).  Result in
seconds. -/
def tsCoreClassifier (u : List Char) : Option Nat :=
  match u with
  | a :: b :: rest =>
    if isDigitChar a ∧ isDigitChar b then
      match rest with
      | c :: d :: e :: rest2 =>
        if c = ':' ∧ isDigitChar d ∧ isDigitChar e then
          some (withOptional (digitVal a * 10 + digitVal b) (digitVal d * 10 + digitVal e) rest2)
        else none
      | _ => none
    else if b = ':' then
      match rest with
      | d :: e :: rest2 =>
        if isDigitChar a ∧ isDigitChar d ∧ isDigitChar e then
          some (withOptional (digitVal a) (digitVal d * 10 + digitVal e) rest2)
        else none
      | _ => none
    else none
  | _ => none

/-- The classifier's per-line timestamp extraction (seconds). -/
def classifierLineSeconds (line : List Char) : Option Nat :=
  tsCoreClassifier (line.dropWhile jsWhitespace)

/-- `text.split('\n')`, first part / remaining parts. -/
def splitNlAux : List Char → List Char × List (List Char)
  | [] => ([], [])
  | c :: rest =>
    let (p, ps) := splitNlAux rest
    if c = '\n' then ([], p :: ps) else (c :: p, ps)

/-- `text.split('\n')` (JS: the empty string splits to `[""]`). -/
def splitNl (l : List Char) : List (List Char) :=
  (splitNlAux l).1 :: (splitNlAux l).2

/-- `timestamps` collected by `detectIfAlreadyCorrected`: scan the first 10
lines, keeping up to 5 parseable timestamps (seconds). -/
def extractTimestamps (lines : List (List Char)) : List Nat :=
  (((lines.take 10).filterMap classifierLineSeconds).take 5)

/-- The classifier's monotonicity check: `false` iff some timestamp is
strictly below its predecessor. -/
def isMonotonicTs : List Nat → Bool
  | a :: b :: rest => !(b < a) && isMonotonicTs (b :: rest)
  | _ => true

/-- `detectIfAlreadyCorrected` from the source. -/
def detectIfAlreadyCorrected (text : List Char) (chunkStartMs : Nat) : Bool :=
  let chunkStartSeconds := chunkStartMs / 1000
  if chunkStartSeconds = 0 then true
  else
    match extractTimestamps (splitNl text) with
    | t0 :: t1 :: ts =>
      let timestamps := t0 :: t1 :: ts
      let firstTimestamp := t0
      if firstTimestamp < 60 ∧ chunkStartSeconds > 120 then false
      else
        let toleranceSeconds := max 120 (chunkStartSeconds / 10)
        if (firstTimestamp : Int) < (chunkStartSeconds : Int) - (toleranceSeconds : Int) then false
        else if ((firstTimestamp : Int) - (chunkStartSeconds : Int)).natAbs ≤ toleranceSeconds ∧
                  isMonotonicTs timestamps then true
        else if chunkStartSeconds ≤ firstTimestamp ∧ firstTimestamp ≤ chunkStartSeconds + 300 then true
        else false
    | _ => false

/-- `String(n)` for a natural number: its decimal digits. -/
def natToDec (n : Nat) : List Char := Nat.toDigits 10 n

/-- `String.prototype.padStart(2, '0')`. -/
def padStart2 (s : List Char) : List Char :=
  if s.length < 2 then List.replicate (2 - s.length) '0' ++ s else s

/-- First replace of `sanitizeTimestamp`: an occurrence of
`(\d{1,2}):(\d{2}):(\d{3,})` starting at the head of the list, replaced by
`$1:$2`.  Returns the replacement text and the unconsumed tail. -/
def trySan1 (u : List Char) : Option (List Char × List Char) :=
  match u with
  | a :: b :: rest =>
    if isDigitChar a ∧ isDigitChar b then
      match rest with
      | c :: d :: e :: f :: rest2 =>
        if c = ':' ∧ isDigitChar d ∧ isDigitChar e ∧ f = ':' then
          let g3 := rest2.takeWhile isDigitChar
          if 3 ≤ g3.length then some ([a, b, ':', d, e], rest2.drop g3.length)
          else none
        else none
      | _ => none
    else if b = ':' then
      match rest with
      | d :: e :: f :: rest2 =>
        if isDigitChar a ∧ isDigitChar d ∧ isDigitChar e ∧ f = ':' then
          let g3 := rest2.takeWhile isDigitChar
          if 3 ≤ g3.length then some ([a, ':', d, e], rest2.drop g3.length)
          else none
        else none
      | _ => none
    else none
  | _ => none

/-- Global-replace scan for the first `sanitizeTimestamp` pattern: at each
position try the match; on success emit the replacement and resume after the
consumed span, otherwise copy one character.  `fuel` bounds the recursion and
never runs out when initialized to the text length, since every step consumes
at least one character. -/
def sanAux1 : Nat → List Char → List Char
  | 0, cs => cs
  | _ + 1, [] => []
  | fuel + 1, c :: cs =>
    match trySan1 (c :: cs) with
    | some (out, rest) => out ++ sanAux1 fuel rest
    | none => c :: sanAux1 fuel cs

/-- `parseInt` of a digit group. -/
def digitsToNat (l : List Char) : Nat := l.foldl (fun n c => n * 10 + digitVal c) 0

/-- Second replace of `sanitizeTimestamp`: an occurrence of `(\d{4,}):(\d{2})`
starting at the head of the list, replaced by the hour-fixing callback. -/
def trySan2 (u : List Char) : Option (List Char × List Char) :=
  let g1 := u.takeWhile isDigitChar
  if 4 ≤ g1.length then
    match u.drop g1.length with
    | c :: m1 :: m2 :: rest =>
      if c = ':' ∧ isDigitChar m1 ∧ isDigitChar m2 then
        let h := digitsToNat g1
        let hours := h / 100
        let repl :=
          if hours > 0 then
            padStart2 (natToDec hours) ++ ':' :: padStart2 (natToDec (h % 100)) ++ [':', m1, m2]
          else
            padStart2 (natToDec (h % 100)) ++ [':', m1, m2]
        some (repl, rest)
      else none
    | _ => none
  else none

/-- Global-replace scan for the second `sanitizeTimestamp` pattern. -/
def sanAux2 : Nat → List Char → List Char
  | 0, cs => cs
  | _ + 1, [] => []
  | fuel + 1, c :: cs =>
    match trySan2 (c :: cs) with
    | some (out, rest) => out ++ sanAux2 fuel rest
    | none => c :: sanAux2 fuel cs

/-- `sanitizeTimestamp` from the source: the two global replaces in order. -/
def sanitizeTimestamp (text : List Char) : List Char :=
  let text1 := sanAux1 text.length text
  sanAux2 text1.length text1

/-- The reformatting done by the `correctTimestamps` replacement callback for
an already-offset total of seconds: `HH:MM:SS` (zero-padded) when an hour is
reached, else `MM:SS`. -/
def formatCorrected (correctedSeconds : Nat) : List Char :=
  let hours := correctedSeconds / 3600
  let minutes := correctedSeconds % 3600 / 60
  let seconds := correctedSeconds % 60
  if hours > 0 then
    padStart2 (natToDec hours) ++ ':' :: padStart2 (natToDec minutes) ++ ':' :: padStart2 (natToDec seconds)
  else
    padStart2 (natToDec minutes) ++ ':' :: padStart2 (natToDec seconds)

/-- Whether the last character of a consumed span is a line terminator - then
the next scan position is a line start for the `m`-flag `^` anchor. -/
def lastIsLineTerminator (l : List Char) : Bool :=
  match l.getLast? with
  | some c => isLineTerminator c
  | none => false

/-- Tail of a `correctTimestamps` pattern match after the first two groups:
the mandatory trailing `(\s+)` (greedy).  `lead` is the `(\s*)` group.
Returns the full replacement - `lead`, the reformatted timestamp, and the
trailing whitespace - together with whether the consumed text ended with a
line terminator (the next scan position then starts a line), and the
unconsumed tail. -/
def offsetTrail (lead : List Char) (base : Nat) (rest2 : List Char) :
    Option (List Char × Bool × List Char) :=
  let trail := rest2.takeWhile jsWhitespace
  if trail = [] then none
  else
    some (lead ++ formatCorrected base ++ trail, lastIsLineTerminator trail,
      rest2.drop trail.length)

/-- The optional `(?::(\d{2}))?` group after the first two groups of a
`correctTimestamps` pattern match, dispatching to `offsetTrail` with the
`HH:MM:SS` or `MM:SS` reading of the consumed groups plus the offset. -/
def offsetTail (off : Nat) (lead : List Char) (p1 p2 : Nat) (rest2 : List Char) :
    Option (List Char × Bool × List Char) :=
  match rest2 with
  | c :: e :: f :: rest3 =>
    if c = ':' ∧ isDigitChar e ∧ isDigitChar f then
      offsetTrail lead (p1 * 3600 + p2 * 60 + (digitVal e * 10 + digitVal f) + off) rest3
    else offsetTrail lead (p1 * 60 + p2 + off) rest2
  | _ => offsetTrail lead (p1 * 60 + p2 + off) rest2

/-- One attempted match of the `correctTimestamps` pattern
`/^(\s*)(\d{1,2}):(\d{2})(?::(\d{2}))?(\s+)/gm` at the current (line-start)
position. -/
def tryOffsetMatch (off : Nat) (cs : List Char) : Option (List Char × Bool × List Char) :=
  let lead := cs.takeWhile jsWhitespace
  match cs.dropWhile jsWhitespace with
  | a :: b :: rest =>
    if isDigitChar a ∧ isDigitChar b then
      match rest with
      | c :: d :: e :: rest2 =>
        if c = ':' ∧ isDigitChar d ∧ isDigitChar e then
          offsetTail off lead (digitVal a * 10 + digitVal b) (digitVal d * 10 + digitVal e) rest2
        else none
      | _ => none
    else if b = ':' then
      match rest with
      | d :: e :: rest2 =>
        if isDigitChar a ∧ isDigitChar d ∧ isDigitChar e then
          offsetTail off lead (digitVal a) (digitVal d * 10 + digitVal e) rest2
        else none
      | _ => none
    else none
  | _ => none

/-- Scan of the multiline global replace: matches are attempted only at
line-start positions (`^` with the `m` flag); on failure one character is
copied and the line-start state is recomputed from it. -/
def applyOffsetAux (off : Nat) : Nat → Bool → List Char → List Char
  | 0, _, cs => cs
  | _ + 1, _, [] => []
  | fuel + 1, atStart, c :: cs =>
    if atStart then
      match tryOffsetMatch off (c :: cs) with
      | some (out, lastNl, rest) => out ++ applyOffsetAux off fuel lastNl rest
      | none => c :: applyOffsetAux off fuel (isLineTerminator c) cs
    else c :: applyOffsetAux off fuel (isLineTerminator c) cs

/-- The offset-injecting replace of `correctTimestamps`. -/
def applyOffsetReplace (off : Nat) (text : List Char) : List Char :=
  applyOffsetAux off text.length true text

/-- `correctTimestamps` from the source: sanitize, then return unchanged for
chunk 0 or an already-corrected classification, else add the offset to every
line-leading timestamp. -/
def correctTimestamps (text : List Char) (chunkStartMs : Nat) : List Char :=
  let offsetSeconds := chunkStartMs / 1000
  let text1 := sanitizeTimestamp text
  if offsetSeconds = 0 then text1
  else if detectIfAlreadyCorrected text1 chunkStartMs then text1
  else applyOffsetReplace offsetSeconds text1

/-- The fields of a stored chunk consumed by `mergeChunks`. -/
structure ChunkRecord where
  index : Nat
  startMs : Nat
  endMs : Nat
  text : List Char
deriving DecidableEq

/-- One entry of the merge diagnostics `skippedLines`. -/
structure SkippedLine where
  chunkIndex : Nat
  timestamp : List Char
  threshold : List Char
  line : List Char
deriving DecidableEq

/-- One entry of the merge diagnostics `chunkInfo`. -/
structure ChunkInfo where
  index : Nat
  startMs : Nat
  endMs : Nat
  lineCount : Nat
  firstTimestamp : Option (List Char)
  lastTimestamp : Option (List Char)
deriving DecidableEq

/-- The mutable state of the `mergeChunks` loop: the retained output lines,
the skipped-line diagnostics, and the running `thresholdMs`. -/
structure MergeAcc where
  lines : List (List Char)
  skipped : List SkippedLine
  thresholdMs : Nat
deriving DecidableEq

/-- The fixed overlap constant of the merge engine (`OVERLAP_MS = 5000`). -/
def OVERLAP_MS : Nat := 5000

/-- `formatTimestampFromMs` from the source: `HH:MM:SS` when an hour is
reached, else `MM:SS`, zero-padded. -/
def formatTimestampFromMs (ms : Nat) : List Char :=
  let totalSeconds := ms / 1000
  let hours := totalSeconds / 3600
  let minutes := totalSeconds % 3600 / 60
  let seconds := totalSeconds % 60
  if hours > 0 then
    padStart2 (natToDec hours) ++ ':' :: padStart2 (natToDec minutes) ++ ':' :: padStart2 (natToDec seconds)
  else
    padStart2 (natToDec minutes) ++ ':' :: padStart2 (natToDec seconds)

/-- Strip one trailing `'\r'` (the `\r?` of the `split(/\r?\n/)` separator). -/
def stripCR (l : List Char) : List Char :=
  match l.reverse with
  | '\r' :: rest => rest.reverse
  | _ => l

/-- Apply `f` to every element except the last. -/
def mapExceptLast (f : List Char → List Char) : List (List Char) → List (List Char)
  | [] => []
  | [a] => [a]
  | a :: rest => f a :: mapExceptLast f rest

/-- `text.split(/\r?\n/)`: split on `'\n'` and strip the optional `'\r'`
before each separator. -/
def splitLinesRN (text : List Char) : List (List Char) :=
  mapExceptLast stripCR (splitNl text)

/-- `String.prototype.trimEnd`. -/
def trimEndJs (l : List Char) : List Char :=
  (l.reverse.dropWhile jsWhitespace).reverse

/-- `lines[lines.length - 1] = lines[last] + '\n' + line` when the output is
non-empty, else `lines.push(line)`. -/
def joinToLast : List (List Char) → List Char → List (List Char)
  | [], line => [line]
  | [last], line => [last ++ '\n' :: line]
  | l :: ls, line => l :: joinToLast ls line

/-- The `mergeChunks` inner loop body for one line of one chunk. -/
def processLine (c : ChunkRecord) (acc : MergeAcc) (line : List Char) : MergeAcc :=
  match getTimestampMs line with
  | some timestampMs =>
    if (timestampMs : Int) < (c.startMs : Int) - (OVERLAP_MS : Int) then
      { acc with skipped := acc.skipped ++
          [{ chunkIndex := c.index, timestamp := formatTimestampFromMs timestampMs,
             threshold := formatTimestampFromMs (c.startMs - OVERLAP_MS),
             line := line.take 100 }] }
    else
      { acc with thresholdMs := max acc.thresholdMs timestampMs,
                 lines := acc.lines ++ [trimEndJs line] }
  | none => { acc with lines := joinToLast acc.lines line }

/-- The `mergeChunks` outer loop body for one chunk: process its lines, then
advance the threshold with `chunk.startMs` (not `chunk.endMs`). -/
def processChunk (acc : MergeAcc) (c : ChunkRecord) : MergeAcc :=
  let acc1 := (splitLinesRN c.text).foldl (processLine c) acc
  { acc1 with thresholdMs := max acc1.thresholdMs c.startMs }

/-- Stable insertion preserving the relative order of equal indices, modelling
`[...chunks].sort((a, b) => a.index - b.index)`. -/
def insertByIndex (c : ChunkRecord) : List ChunkRecord → List ChunkRecord
  | [] => [c]
  | d :: ds => if d.index ≤ c.index then d :: insertByIndex c ds else c :: d :: ds

/-- Sort the chunk list by ascending `index` (stable). -/
def sortByIndex (l : List ChunkRecord) : List ChunkRecord :=
  l.foldl (fun acc c => insertByIndex c acc) []

/-- `Array.prototype.join('\n')`. -/
def intercalateNl : List (List Char) → List Char
  | [] => []
  | [l] => l
  | l :: ls => l ++ '\n' :: intercalateNl ls

/-- The `chunkInfo` diagnostics entry for one chunk. -/
def chunkInfoOf (c : ChunkRecord) : ChunkInfo :=
  let chunkLines := splitLinesRN c.text
  let timestamps := chunkLines.filterMap getTimestampMs
  { index := c.index, startMs := c.startMs, endMs := c.endMs,
    lineCount := chunkLines.length,
    firstTimestamp := timestamps.head?.map formatTimestampFromMs,
    lastTimestamp := timestamps.getLast?.map formatTimestampFromMs }

/-- The result of `mergeChunks`: the merged text and the debug payload. -/
structure MergeResult where
  merged : List Char
  skippedLines : List SkippedLine
  chunkInfo : List ChunkInfo
deriving DecidableEq

/-- `mergeChunks` from the source. -/
def mergeChunks (chunks : List ChunkRecord) : MergeResult :=
  let sorted := sortByIndex chunks
  let acc := sorted.foldl processChunk ⟨[], [], 0⟩
  { merged := intercalateNl acc.lines,
    skippedLines := acc.skipped,
    chunkInfo := sorted.map chunkInfoOf }

/-- The error text built by the merge route handler for a missing chunk. -/
def missingChunkMessage (i : Nat) : List Char :=
  str "Missing chunk " ++ natToDec i ++ str ". Please reprocess this chunk."

/-- The merge route handler's pre-merge collection loop: fetch chunk `start`,
`start+1`, ... (`n` of them); the first index whose lookup yields nothing
aborts with the missing-chunk error. -/
def collectChunks (lookup : Nat → Option ChunkRecord) : Nat → Nat → Except (Nat × List Char) (List ChunkRecord)
  | _, 0 => .ok []
  | i, n + 1 =>
    match lookup i with
    | none => .error (i, missingChunkMessage i)
    | some r => (collectChunks lookup (i + 1) n).map (r :: ·)

/-- The merge route handler: collect every chunk index in `[0, totalChunks)`,
then (and only then) run `mergeChunks`. -/
def mergeRoute (lookup : Nat → Option ChunkRecord) (totalChunks : Nat) :
    Except (Nat × List Char) MergeResult :=
  (collectChunks lookup 0 totalChunks).map mergeChunks

/-! ## Specification-side definitions

These transcribe the specification's words (not the source) and are compared
with the source embedding in the refinement theorems. -/

/-- The evidence the specification's classifier decision table judges from. -/
structure ClassifierCtx where
  chunkStartSec : Nat
  timestamps : List Nat
  firstTs : Nat
  tolerance : Nat

/-- Spec Rule A: `firstTs < 60` and `chunkStartSec > 120` means relative. -/
def ruleA (ctx : ClassifierCtx) : Option Bool :=
  if ctx.firstTs < 60 ∧ ctx.chunkStartSec > 120 then some false else none

/-- Spec Rule B: first timestamp more than `tolerance` before the chunk start
means relative. -/
def ruleB (ctx : ClassifierCtx) : Option Bool :=
  if (ctx.firstTs : Int) < (ctx.chunkStartSec : Int) - (ctx.tolerance : Int) then some false
  else none

/-- Spec Rule C: first timestamp within `tolerance` of the chunk start and a
monotonically non-decreasing sample means already corrected. -/
def ruleC (ctx : ClassifierCtx) : Option Bool :=
  if ((ctx.firstTs : Int) - (ctx.chunkStartSec : Int)).natAbs ≤ ctx.tolerance ∧
      isMonotonicTs ctx.timestamps then some true
  else none

/-- Spec Rule D: first timestamp in `[chunkStartSec, chunkStartSec + 300]`
means already corrected. -/
def ruleD (ctx : ClassifierCtx) : Option Bool :=
  if ctx.chunkStartSec ≤ ctx.firstTs ∧ ctx.firstTs ≤ ctx.chunkStartSec + 300 then some true
  else none

/-- The ordered decision table of the specification's classifier. -/
def classifierDecisionTable : List (ClassifierCtx → Option Bool) := [ruleA, ruleB, ruleC, ruleD]

/-- First matching rule wins; no rule matching defaults to "needs
correction". -/
def runDecisionTable (ctx : ClassifierCtx) : Bool :=
  (classifierDecisionTable.findSome? (fun r => r ctx)).getD false

/-- The classifier decision table evaluated on a chunk text, behind a
configurable chunk-0 gate, per the specification: fewer than two extracted
timestamps defaults to "needs correction". -/
def detectSpecTableWithGate (gate : Bool) (text : List Char) (chunkStartMs : Nat) : Bool :=
  if gate then true
  else
    match extractTimestamps (splitNl text) with
    | t0 :: t1 :: ts =>
      let sec := chunkStartMs / 1000
      runDecisionTable ⟨sec, t0 :: t1 :: ts, t0, max 120 (sec / 10)⟩
    | _ => false

/-- The decision table exactly as the claim words it: the chunk-0 gate reads
`startMs == 0`. -/
def detectSpecClaim (text : List Char) (chunkStartMs : Nat) : Bool :=
  detectSpecTableWithGate (chunkStartMs = 0) text chunkStartMs

/-- The decision table with the chunk-0 gate the code actually uses:
`floor(startMs / 1000) == 0`. -/
def detectSpecFloorGate (text : List Char) (chunkStartMs : Nat) : Bool :=
  detectSpecTableWithGate (chunkStartMs / 1000 = 0) text chunkStartMs

/-- The parsed leading timestamps (ms) of the physical lines of a merge
output state. -/
def tsOfLines (lines : List (List Char)) : List Nat :=
  (lines.flatMap splitNl).filterMap getTimestampMs

/-- The timestamp entries one chunk line contributes to the merged output:
nothing if it is dropped as overlap or carries no parseable timestamp, else
the parse of its trailing-trimmed form. -/
def keptContribution (c : ChunkRecord) (line : List Char) : List Nat :=
  match getTimestampMs line with
  | some t =>
    if (t : Int) < (c.startMs : Int) - (OVERLAP_MS : Int) then []
    else (getTimestampMs (trimEndJs line)).toList
  | none => []

/-- The overlap-filtered timestamp sequence of one chunk. -/
def chunkKeptTs (c : ChunkRecord) : List Nat :=
  (splitLinesRN c.text).flatMap (keptContribution c)

/-- The concatenation, over the index-sorted chunks, of the per-chunk
overlap-filtered timestamp sequences. -/
def specKeptSeq (chunks : List ChunkRecord) : List Nat :=
  (sortByIndex chunks).flatMap chunkKeptTs

/-- The parsed leading timestamps (ms) of the lines of the merged
transcript. -/
def mergedTsSeq (chunks : List ChunkRecord) : List Nat :=
  (splitNl (mergeChunks chunks).merged).filterMap getTimestampMs

/-- **C2, counterexample.**  With `startMs = 500` (a sub-second start) and
text whose first timestamps are far from zero, the code returns "already
correct" while the claim's decision table (whose first rule fires only at
`startMs == 0`) returns "needs correction": the claimed table is not the
implemented function. -/
theorem detect_gate_counterexample_C2 :
    detectIfAlreadyCorrected (str "50:00 A\n51:00 B") 500 = true ∧
      detectSpecClaim (str "50:00 A\n51:00 B") 500 = false := by
  constructor <;> decide

/-- **C2, amended.**  `detectIfAlreadyCorrected` implements exactly the
claim's ordered decision table once its rule (1) is amended to fire on
`floor(startMs / 1000) == 0` instead of `startMs == 0`. -/
theorem detect_matches_decision_table_C2 (text : List Char) (chunkStartMs : Nat) :
    detectIfAlreadyCorrected text chunkStartMs = detectSpecFloorGate text chunkStartMs := by
  unfold detectIfAlreadyCorrected detectSpecFloorGate detectSpecTableWithGate
  by_cases h0 : chunkStartMs / 1000 = 0
  · simp [h0]
  · simp only [h0, if_false, if_neg h0]
    cases h : extractTimestamps (splitNl text) with
    | nil => rfl
    | cons t0 ts' =>
      cases ts' with
      | nil => rfl
      | cons t1 ts =>
        unfold runDecisionTable classifierDecisionTable
        simp only [List.findSome?_cons, ruleA, ruleB, ruleC, ruleD]
        split_ifs <;> simp_all

/-- **C6, counterexample.**  `correctTimestamps(text, 0)` is not the identity:
the sanitization pass runs before the chunk-0 early return, so a malformed
millisecond timestamp is rewritten even for chunk 0. -/
theorem chunk0_not_identity_C6 :
    correctTimestamps (str "00:53:724 A: hi") 0 = str "00:53 A: hi" ∧
      str "00:53 A: hi" ≠ str "00:53:724 A: hi" := by
  constructor <;> decide

/-- **C6, amended.**  Chunk-0 behaviour: `correctTimestamps(text, 0)` returns
`sanitizeTimestamp(text)` - the identity exactly on texts the sanitizer leaves
unchanged (no `H:MM:SSS`-style millisecond artifact and no 4+-digit hour
group). -/
theorem chunk0_returns_sanitized_C6 (text : List Char) :
    correctTimestamps text 0 = sanitizeTimestamp text := rfl

/-- **C7.**  No double correction: on a chunk text whose first timestamps are
`34:52, 35:57, 36:00` with `chunkStartMs = 2092000` (= 34:52), the classifier
answers "already correct" and `correctTimestamps` returns the text
unmodified. -/
theorem no_double_correction_C7 :
    detectIfAlreadyCorrected (str "34:52 A: hello\n35:57 B: world\n36:00 A: bye") 2092000 = true ∧
      correctTimestamps (str "34:52 A: hello\n35:57 B: world\n36:00 A: bye") 2092000 =
        str "34:52 A: hello\n35:57 B: world\n36:00 A: bye" := by
  constructor <;> decide

/-- **C8.**  Offset injection: relative timestamps `0:00, 0:05, 0:10` with
`chunkStartMs = 2092000` are classified as needing correction and rewritten to
exactly `34:52, 34:57, 35:02` (zero-padded `MM:SS`, totals below one hour). -/
theorem offset_injection_C8 :
    detectIfAlreadyCorrected (str "0:00 A: a\n0:05 B: b\n0:10 A: c") 2092000 = false ∧
      correctTimestamps (str "0:00 A: a\n0:05 B: b\n0:10 A: c") 2092000 =
        str "34:52 A: a\n34:57 B: b\n35:02 A: c" := by
  constructor <;> decide

/-- **C10.**  Sub-second chunk starts behave like chunk 0: for
`1 ≤ chunkStartMs ≤ 999` the offset `floor(chunkStartMs/1000)` is zero, so
`correctTimestamps` returns the same result as for `chunkStartMs = 0`, and
`detectIfAlreadyCorrected` reports "already correct". -/
theorem subsecond_start_like_chunk0_C10 (text : List Char) (chunkStartMs : Nat)
    (h1 : 1 ≤ chunkStartMs) (h2 : chunkStartMs ≤ 999) :
    correctTimestamps text chunkStartMs = correctTimestamps text 0 ∧
      detectIfAlreadyCorrected text chunkStartMs = true := by
  have hdiv : chunkStartMs / 1000 = 0 := Nat.div_eq_of_lt (by omega)
  constructor
  · unfold correctTimestamps
    simp [hdiv]
  · unfold detectIfAlreadyCorrected
    simp [hdiv]

/-- If the strict two-digit parse of `TIMESTAMP_PATTERN` succeeds, the
classifier's one-or-two-digit parse succeeds with the same value: the two
regexes agree whenever the first numeric field has exactly two digits. -/
theorem tsCoreClassifier_of_merge {u : List Char} {s : Nat}
    (h : tsCoreMerge u = some s) : tsCoreClassifier u = some s := by
  cases u with
  | nil => simp [tsCoreMerge] at h
  | cons a t =>
    cases t with
    | nil => simp [tsCoreMerge] at h
    | cons b rest =>
      unfold tsCoreMerge at h
      unfold tsCoreClassifier
      by_cases hd : isDigitChar a ∧ isDigitChar b
      · simp only [if_pos hd] at h ⊢
        exact h
      · simp only [if_neg hd] at h
        exact absurd h (by simp)

/-- **C3, counterexample.**  The two timestamp parses are not identical: on a
line whose leading field has a single digit, the Merge Engine's
`TIMESTAMP_PATTERN` (`\d{2}` first group) fails while the Classifier's line
match (`\d{1,2}` first group) succeeds. -/
theorem parser_divergence_C3 :
    getTimestampMs (str "3:05 A: x") = none ∧
      classifierLineSeconds (str "3:05 A: x") = some 185 := by
  constructor <;> decide

/-- **C3, amended.**  One-sided agreement: whenever the Merge Engine's parse
succeeds on a line, the Classifier's parse succeeds on that line with the same
value (in seconds; the merge value is exactly 1000 times it).  The converse
fails for single-digit leading fields, per the counterexample. -/
theorem parser_agreement_amended_C3 (line : List Char) (t : Nat)
    (h : getTimestampMs line = some t) :
    classifierLineSeconds line = some (t / 1000) ∧ t / 1000 * 1000 = t := by
  unfold getTimestampMs at h
  cases hc : tsCoreMerge (line.dropWhile jsWhitespace) with
  | none => rw [hc] at h; simp at h
  | some s =>
    rw [hc] at h
    simp only [Option.map_some', Option.some.injEq] at h
    unfold classifierLineSeconds
    rw [tsCoreClassifier_of_merge hc, ← h]
    simp

/-- Witness for `parser_agreement_amended_C3` on the line `12:34 A`
(754 seconds). -/
theorem parser_agreement_amended_C3_witness :
    classifierLineSeconds (str "12:34 A") = some (754000 / 1000) ∧
      754000 / 1000 * 1000 = 754000 :=
  parser_agreement_amended_C3 (str "12:34 A") 754000 (by decide)

/-- The collection loop of the merge route handler errors out at the first
missing index: if some index among `s, ..., s+n-1` has no stored chunk, the
loop returns the missing-chunk error for the least such index. -/
theorem collectChunks_error_of_missing (lookup : Nat → Option ChunkRecord) :
    ∀ (n s : Nat), (∃ k, k < n ∧ lookup (s + k) = none) →
      ∃ k, k < n ∧ lookup (s + k) = none ∧ (∀ j, j < k → lookup (s + j) ≠ none) ∧
        collectChunks lookup s n = .error (s + k, missingChunkMessage (s + k)) := by
  intro n
  induction n with
  | zero =>
    rintro s ⟨k, hk, -⟩
    exact absurd hk (by omega)
  | succ n ih =>
    rintro s ⟨k, hk, hnone⟩
    cases hl : lookup s with
    | none =>
      refine ⟨0, by omega, by simpa using hl, fun j hj => absurd hj (by omega), ?_⟩
      unfold collectChunks
      rw [hl]
      simp
    | some r =>
      have hk0 : k ≠ 0 := by
        rintro rfl
        rw [Nat.add_zero, hl] at hnone
        cases hnone
      obtain ⟨k', rfl⟩ : ∃ k', k = k' + 1 := ⟨k - 1, by omega⟩
      obtain ⟨k2, hk2, hn2, hall2, heq⟩ :=
        ih (s + 1) ⟨k', by omega, by rwa [show s + 1 + k' = s + (k' + 1) by omega]⟩
      refine ⟨k2 + 1, by omega, ?_, ?_, ?_⟩
      · rw [show s + (k2 + 1) = s + 1 + k2 by omega]
        exact hn2
      · intro j hj
        cases j with
        | zero =>
          rw [Nat.add_zero, hl]
          simp
        | succ j' =>
          have := hall2 j' (by omega)
          rwa [show s + (j' + 1) = s + 1 + j' by omega]
      · unfold collectChunks
        rw [hl, heq]
        rw [show s + 1 + k2 = s + (k2 + 1) by omega]
        rfl

/-- **C5.**  If any chunk index in `[0, totalChunks)` has no stored chunk at
merge time, the merge route fails - before `mergeChunks` runs - with the
`Missing chunk N` error naming the (least) missing index, and returns no
merged transcript. -/
theorem missing_chunk_aborts_merge_C5 (lookup : Nat → Option ChunkRecord) (total : Nat)
    (h : ∃ i, i < total ∧ lookup i = none) :
    ∃ i, i < total ∧ lookup i = none ∧ (∀ j, j < i → lookup j ≠ none) ∧
      mergeRoute lookup total = .error (i, missingChunkMessage i) := by
  obtain ⟨i, hi, hnone⟩ := h
  obtain ⟨k, hk, hn, hall, heq⟩ :=
    collectChunks_error_of_missing lookup total 0 ⟨i, hi, by simpa using hnone⟩
  rw [Nat.zero_add] at hn heq
  refine ⟨k, hk, hn, ?_, ?_⟩
  · intro j hj
    have := hall j hj
    rwa [Nat.zero_add] at this
  · unfold mergeRoute
    rw [heq]
    rfl

/-- Witness for `missing_chunk_aborts_merge_C5`: three expected chunks with
index 1 absent. -/
theorem missing_chunk_aborts_merge_C5_witness :
    ∃ i, i < 3 ∧
      (fun n => if n = 1 then none else some (⟨n, 0, 0, str "x"⟩ : ChunkRecord)) i = none ∧
      (∀ j, j < i →
        (fun n => if n = 1 then none else some (⟨n, 0, 0, str "x"⟩ : ChunkRecord)) j ≠ none) ∧
      mergeRoute (fun n => if n = 1 then none else some (⟨n, 0, 0, str "x"⟩ : ChunkRecord)) 3 =
        .error (i, missingChunkMessage i) :=
  missing_chunk_aborts_merge_C5 _ 3 ⟨1, by omega, by decide⟩

/-- Appending a continuation line never empties the output. -/
theorem joinToLast_ne_nil (ls : List (List Char)) (line : List Char) :
    joinToLast ls line ≠ [] := by
  cases ls with
  | nil => simp [joinToLast]
  | cons l ls' =>
    cases ls' with
    | nil => simp [joinToLast]
    | cons l2 ls'' => simp [joinToLast]

/-- `join('\n')` on a non-empty tail. -/
theorem intercalateNl_cons (l : List Char) (ls : List (List Char)) (h : ls ≠ []) :
    intercalateNl (l :: ls) = l ++ '\n' :: intercalateNl ls := by
  cases ls with
  | nil => exact absurd rfl h
  | cons l2 ls' => rfl

/-- Gluing a continuation line onto the last retained line adds exactly
`'\n' ++ line` to the newline-joined output text: continuation lines are never
dropped. -/
theorem intercalateNl_joinToLast (ls : List (List Char)) (line : List Char) :
    intercalateNl (joinToLast ls line) =
      if ls = [] then line else intercalateNl ls ++ '\n' :: line := by
  induction ls with
  | nil => rfl
  | cons l ls' ih =>
    cases ls' with
    | nil => rfl
    | cons l2 ls'' =>
      have hne : joinToLast (l2 :: ls'') line ≠ [] := joinToLast_ne_nil _ _
      simp only [joinToLast, intercalateNl_cons _ _ hne,
        intercalateNl_cons l (l2 :: ls'') (by simp), ih]
      simp

/-- `insertByIndex` commutes with an update of the `endMs` field, which the
comparator does not read. -/
theorem insertByIndex_map_endMs (f : ChunkRecord → Nat) (c : ChunkRecord) :
    ∀ l : List ChunkRecord,
      insertByIndex { c with endMs := f c } (l.map (fun d => { d with endMs := f d })) =
        (insertByIndex c l).map (fun d => { d with endMs := f d }) := by
  intro l
  induction l with
  | nil => rfl
  | cons d ds ih =>
    simp only [List.map_cons, insertByIndex]
    by_cases h : d.index ≤ c.index
    · simp only [h, if_pos h, ih]
      rfl
    · simp only [if_neg h]
      rfl

/-- Sorting by index commutes with an update of the `endMs` field. -/
theorem sortByIndex_map_endMs (f : ChunkRecord → Nat) (chunks : List ChunkRecord) :
    sortByIndex (chunks.map (fun d => { d with endMs := f d })) =
      (sortByIndex chunks).map (fun d => { d with endMs := f d }) := by
  unfold sortByIndex
  suffices h : ∀ (l acc : List ChunkRecord),
      (l.map (fun d => { d with endMs := f d })).foldl (fun a c => insertByIndex c a)
          (acc.map (fun d => { d with endMs := f d })) =
        (l.foldl (fun a c => insertByIndex c a) acc).map (fun d => { d with endMs := f d }) by
    simpa using h chunks []
  intro l
  induction l with
  | nil => intro acc; rfl
  | cons c cs ih =>
    intro acc
    simp only [List.map_cons, List.foldl_cons, insertByIndex_map_endMs, ih]

/-- **C1.**  `mergeChunks` line handling, exactly as specified: (a) a line
with a parseable leading timestamp `t` is dropped iff
`t < chunk.startMs - OVERLAP_MS`, and otherwise retained in order; (b) a line
without a parseable leading timestamp is appended newline-joined to the
previous retained output line (standing alone only when no line has been
retained yet) and is never dropped - the joined output text gains exactly that
line; (c) after a chunk's lines, the running threshold is advanced by `max`
with `chunk.startMs`; (d) the merged output is entirely independent of every
chunk's `endMs`, so a retained line is never dropped because its timestamp
exceeds the previous chunk's `endMs`. -/
theorem merge_line_handling_C1 :
    (∀ (c : ChunkRecord) (acc : MergeAcc) (line : List Char) (t : Nat),
      getTimestampMs line = some t →
      (processLine c acc line).lines =
        if (t : Int) < (c.startMs : Int) - (OVERLAP_MS : Int) then acc.lines
        else acc.lines ++ [trimEndJs line]) ∧
    (∀ (c : ChunkRecord) (acc : MergeAcc) (line : List Char),
      getTimestampMs line = none →
      (processLine c acc line).lines = joinToLast acc.lines line ∧
      intercalateNl (joinToLast acc.lines line) =
        (if acc.lines = [] then line else intercalateNl acc.lines ++ '\n' :: line)) ∧
    (∀ (acc : MergeAcc) (c : ChunkRecord),
      (processChunk acc c).thresholdMs =
        max ((splitLinesRN c.text).foldl (processLine c) acc).thresholdMs c.startMs) ∧
    (∀ (chunks : List ChunkRecord) (f : ChunkRecord → Nat),
      (mergeChunks (chunks.map (fun c => { c with endMs := f c }))).merged =
        (mergeChunks chunks).merged) := by
  refine ⟨?_, ?_, ?_, ?_⟩
  · intro c acc line t h
    simp only [processLine, h]
    split <;> rfl
  · intro c acc line h
    exact ⟨by simp only [processLine, h], intercalateNl_joinToLast acc.lines line⟩
  · intro acc c
    rfl
  · intro chunks f
    unfold mergeChunks
    rw [sortByIndex_map_endMs]
    suffices h : ∀ (l : List ChunkRecord) (acc : MergeAcc),
        (l.map (fun d => { d with endMs := f d })).foldl processChunk acc =
          l.foldl processChunk acc by
      simp only [h]
    intro l
    induction l with
    | nil => intro acc; rfl
    | cons c cs ih =>
      intro acc
      simp only [List.map_cons, List.foldl_cons, ih]
      rfl

/-- Witness for `merge_line_handling_C1`, clause (a): a timestamped line of a
chunk starting at 300000 ms, parsed at 290000 ms (inside the 5000 ms overlap
window, hence dropped). -/
theorem merge_line_handling_C1_witness :
    (processLine ⟨1, 300000, 600000, []⟩ ⟨[], [], 0⟩ (str "04:50 B: x")).lines =
      if ((290000 : Nat) : Int) < (((300000 : Nat) : Int)) - (OVERLAP_MS : Int)
      then ([] : List (List Char))
      else [] ++ [trimEndJs (str "04:50 B: x")] :=
  merge_line_handling_C1.1 ⟨1, 300000, 600000, []⟩ ⟨[], [], 0⟩ (str "04:50 B: x") 290000
    (by decide)

/-- Unfolding equation for `splitNlAux` on a cons cell. -/
theorem splitNlAux_cons (c : Char) (rest : List Char) :
    splitNlAux (c :: rest) =
      if c = '\n' then ([], (splitNlAux rest).1 :: (splitNlAux rest).2)
      else (c :: (splitNlAux rest).1, (splitNlAux rest).2) := rfl

/-- `split('\n')` distributes over an append at a newline. -/
theorem splitNl_append_nl (a b : List Char) :
    splitNl (a ++ '\n' :: b) = splitNl a ++ splitNl b := by
  induction a with
  | nil => simp [splitNl, splitNlAux_cons, splitNlAux]
  | cons c a' ih =>
    simp only [List.cons_append, splitNl, splitNlAux_cons] at ih ⊢
    by_cases h : c = '\n'
    · simp only [if_pos h]
      have := congrArg (fun l => ([] : List Char) :: l) ih
      simpa using ih
    · simp only [if_neg h]
      have h1 := congrArg List.head? ih
      have h2 := congrArg List.tail ih
      simp at h1 h2
      simp [h1, h2]

/-- A newline-free text splits to a single line. -/
theorem splitNl_no_nl {l : List Char} (h : '\n' ∉ l) : splitNl l = [l] := by
  induction l with
  | nil => rfl
  | cons c rest ih =>
    have hc : c ≠ '\n' := fun hh => h (hh ▸ List.mem_cons_self c rest)
    have hr : '\n' ∉ rest := fun hh => h (List.mem_cons_of_mem c hh)
    have := ih hr
    simp only [splitNl, splitNlAux_cons, if_neg hc] at this ⊢
    have h1 := congrArg List.head? this
    have h2 := congrArg List.tail this
    simp at h1 h2
    simp [h1, h2]

/-- No part produced by `split('\n')` contains a newline. -/
theorem splitNl_parts_no_nl (l : List Char) :
    ∀ p ∈ splitNl l, '\n' ∉ p := by
  induction l with
  | nil => intro p hp; simp [splitNl, splitNlAux] at hp; simp [hp]
  | cons c rest ih =>
    intro p hp
    simp only [splitNl, splitNlAux_cons] at hp
    by_cases h : c = '\n'
    · simp only [if_pos h] at hp
      rcases List.mem_cons.mp hp with hp | hp
      · simp [hp]
      · exact ih p (by simpa [splitNl] using hp)
    · simp only [if_neg h] at hp
      rcases List.mem_cons.mp hp with hp | hp
      · subst hp
        intro hmem
        rcases List.mem_cons.mp hmem with hh | hh
        · exact h hh.symm
        · exact ih (splitNlAux rest).1 (by simp [splitNl]) hh
      · exact ih p (by simp [splitNl, hp])

/-- `stripCR` only removes characters. -/
theorem mem_of_mem_stripCR {x : Char} {l : List Char} (h : x ∈ stripCR l) : x ∈ l := by
  unfold stripCR at h
  split at h
  · next rest heq =>
    rw [← List.mem_reverse, heq]
    exact List.mem_cons_of_mem _ (List.mem_reverse.mp h)
  · exact h

/-- `trimEnd` only removes characters. -/
theorem mem_of_mem_trimEndJs {x : Char} {l : List Char} (h : x ∈ trimEndJs l) : x ∈ l := by
  unfold trimEndJs at h
  rw [List.mem_reverse] at h
  have := (List.dropWhile_sublist (l := l.reverse) (p := jsWhitespace)).mem h
  exact List.mem_reverse.mp this

/-- Every line produced by `split(/\r?\n/)` is newline-free. -/
theorem splitLinesRN_no_nl (text : List Char) :
    ∀ p ∈ splitLinesRN text, '\n' ∉ p := by
  unfold splitLinesRN
  have base := splitNl_parts_no_nl text
  generalize splitNl text = parts at base ⊢
  induction parts with
  | nil => intro p hp; simp [mapExceptLast] at hp
  | cons a rest ih =>
    intro p hp
    cases rest with
    | nil =>
      simp only [mapExceptLast] at hp
      rcases List.mem_cons.mp hp with hp | hp
      · exact hp ▸ base a (by simp)
      · simp at hp
    | cons b rest' =>
      simp only [mapExceptLast] at hp
      rcases List.mem_cons.mp hp with hp | hp
      · subst hp
        intro hmem
        have hcr := mem_of_mem_stripCR hmem
        exact base a (by simp) hcr
      · exact ih (fun q hq => base q (List.mem_cons_of_mem a hq)) p hp

theorem tsOfLines_nil : tsOfLines [] = [] := rfl

theorem tsOfLines_cons (x : List Char) (xs : List (List Char)) :
    tsOfLines (x :: xs) = (splitNl x).filterMap getTimestampMs ++ tsOfLines xs := by
  simp [tsOfLines, List.flatMap_cons, List.filterMap_append]

theorem tsOfLines_append (xs ys : List (List Char)) :
    tsOfLines (xs ++ ys) = tsOfLines xs ++ tsOfLines ys := by
  simp [tsOfLines, List.flatMap_append, List.filterMap_append]

/-- A continuation line (no parseable leading timestamp) changes no timestamp
entry of the output. -/
theorem tsOfLines_joinToLast {line : List Char} (ls : List (List Char))
    (h : getTimestampMs line = none) (hnl : '\n' ∉ line) :
    tsOfLines (joinToLast ls line) = tsOfLines ls := by
  induction ls with
  | nil =>
    simp [joinToLast, tsOfLines, splitNl_no_nl hnl, h]
  | cons l ls' ih =>
    cases ls' with
    | nil =>
      simp only [joinToLast, tsOfLines_cons, tsOfLines_nil]
      rw [splitNl_append_nl, splitNl_no_nl hnl]
      simp [List.filterMap_append, h]
    | cons l2 ls'' =>
      simp only [joinToLast, tsOfLines_cons, ih]

/-- One step of the merge inner loop adds exactly the line's kept
contribution to the output's timestamp sequence. -/
theorem tsOfLines_processLine (c : ChunkRecord) (acc : MergeAcc) {line : List Char}
    (hnl : '\n' ∉ line) :
    tsOfLines (processLine c acc line).lines =
      tsOfLines acc.lines ++ keptContribution c line := by
  unfold processLine keptContribution
  cases h : getTimestampMs line with
  | none =>
    simp only
    rw [tsOfLines_joinToLast acc.lines h hnl]
    simp
  | some t =>
    simp only
    split
    · simp
    · have hnl' : '\n' ∉ trimEndJs line := fun hmem => hnl (mem_of_mem_trimEndJs hmem)
      rw [tsOfLines_append]
      simp only [tsOfLines_cons, tsOfLines_nil, splitNl_no_nl hnl']
      cases h2 : getTimestampMs (trimEndJs line) <;> simp [List.filterMap_cons, h2]

/-- The merge inner loop over a chunk's lines appends the chunk's
overlap-filtered timestamp sequence. -/
theorem tsOfLines_foldl_lines (c : ChunkRecord) :
    ∀ (ls : List (List Char)) (acc : MergeAcc), (∀ l ∈ ls, '\n' ∉ l) →
      tsOfLines ((ls.foldl (processLine c) acc).lines) =
        tsOfLines acc.lines ++ ls.flatMap (keptContribution c) := by
  intro ls
  induction ls with
  | nil => intro acc _; simp [tsOfLines]
  | cons l ls' ih =>
    intro acc hno
    simp only [List.foldl_cons, List.flatMap_cons]
    rw [ih (processLine c acc l) (fun q hq => hno q (List.mem_cons_of_mem l hq)),
      tsOfLines_processLine c acc (hno l (List.mem_cons_self l ls')), List.append_assoc]

/-- One chunk of the merge outer loop appends exactly its overlap-filtered
timestamp sequence. -/
theorem tsOfLines_processChunk (acc : MergeAcc) (c : ChunkRecord) :
    tsOfLines (processChunk acc c).lines = tsOfLines acc.lines ++ chunkKeptTs c := by
  have hlines : (processChunk acc c).lines =
      ((splitLinesRN c.text).foldl (processLine c) acc).lines := rfl
  rw [hlines, tsOfLines_foldl_lines c (splitLinesRN c.text) acc (splitLinesRN_no_nl c.text)]
  rfl

/-- The timestamp sequence of the newline-joined output equals that of the
output-line list. -/
theorem filterMap_splitNl_intercalateNl (lines : List (List Char)) :
    (splitNl (intercalateNl lines)).filterMap getTimestampMs = tsOfLines lines := by
  induction lines with
  | nil => rfl
  | cons l ls ih =>
    cases ls with
    | nil => simp [intercalateNl, tsOfLines_cons, tsOfLines_nil]
    | cons l2 ls' =>
      rw [intercalateNl_cons l (l2 :: ls') (by simp), splitNl_append_nl]
      simp only [List.filterMap_append, ih, tsOfLines_cons]

/-- Characterization: the merged transcript's leading-timestamp sequence is
exactly the concatenation over the index-sorted chunks of the per-chunk
overlap-filtered timestamp sequences - `mergeChunks` applies the per-chunk
overlap filter and nothing else. -/
theorem mergedTsSeq_eq_specKeptSeq (chunks : List ChunkRecord) :
    mergedTsSeq chunks = specKeptSeq chunks := by
  unfold mergedTsSeq specKeptSeq mergeChunks
  simp only
  rw [filterMap_splitNl_intercalateNl]
  suffices h : ∀ (cs : List ChunkRecord) (acc : MergeAcc),
      tsOfLines ((cs.foldl processChunk acc).lines) =
        tsOfLines acc.lines ++ cs.flatMap chunkKeptTs by
    simpa using h (sortByIndex chunks) ⟨[], [], 0⟩
  intro cs
  induction cs with
  | nil => intro acc; simp [tsOfLines]
  | cons c cs' ih =>
    intro acc
    simp only [List.foldl_cons, List.flatMap_cons]
    rw [ih (processChunk acc c), tsOfLines_processChunk, List.append_assoc]

/-- **C4, counterexample.**  Merged output timestamps are not monotonically
non-decreasing for every input: `mergeChunks` never compares a retained line
against previously retained timestamps, so a later chunk whose (legitimately
retained) timestamps lie below an earlier chunk's produces a decreasing merged
sequence. -/
theorem merged_not_monotonic_C4 :
    isMonotonicTs (mergedTsSeq
      [⟨0, 0, 300000, str "50:00 A: x"⟩, ⟨1, 10000, 310000, str "00:30 B: y"⟩]) = false := by
  decide

/-- **C4, amended.**  The merged timestamp sequence equals the concatenation
of the chunks' overlap-filtered timestamp sequences (in index order); it is
monotonically non-decreasing exactly when that input-side sequence is -
monotonicity is inherited from the input, not enforced by construction. -/
theorem merged_monotonic_of_filtered_input_C4 (chunks : List ChunkRecord)
    (h : isMonotonicTs (specKeptSeq chunks) = true) :
    mergedTsSeq chunks = specKeptSeq chunks ∧
      isMonotonicTs (mergedTsSeq chunks) = true := by
  refine ⟨mergedTsSeq_eq_specKeptSeq chunks, ?_⟩
  rw [mergedTsSeq_eq_specKeptSeq chunks]
  exact h

/-- Witness for `merged_monotonic_of_filtered_input_C4` on a two-chunk input
whose filtered sequence is non-decreasing. -/
theorem merged_monotonic_of_filtered_input_C4_witness :
    mergedTsSeq [⟨0, 0, 305000, str "00:01 A: a\n05:06 A: b"⟩,
        ⟨1, 300000, 605000, str "04:50 B: x\n05:08 B: y"⟩] =
      specKeptSeq [⟨0, 0, 305000, str "00:01 A: a\n05:06 A: b"⟩,
        ⟨1, 300000, 605000, str "04:50 B: x\n05:08 B: y"⟩] ∧
      isMonotonicTs (mergedTsSeq [⟨0, 0, 305000, str "00:01 A: a\n05:06 A: b"⟩,
        ⟨1, 300000, 605000, str "04:50 B: x\n05:08 B: y"⟩]) = true :=
  merged_monotonic_of_filtered_input_C4 _ (by decide)

/-- Witness for `subsecond_start_like_chunk0_C10` at `chunkStartMs = 500`. -/
theorem subsecond_start_like_chunk0_C10_witness :
    correctTimestamps (str "07:00 A: x\n07:05 B: y") 500 =
        correctTimestamps (str "07:00 A: x\n07:05 B: y") 0 ∧
      detectIfAlreadyCorrected (str "07:00 A: x\n07:05 B: y") 500 = true :=
  subsecond_start_like_chunk0_C10 (str "07:00 A: x\n07:05 B: y") 500 (by decide) (by decide)

/-- `takeWhile` passes over a prefix all of whose characters satisfy the
predicate. -/
theorem takeWhile_append_all {p : Char → Bool} :
    ∀ {a : List Char} (b : List Char), (∀ c ∈ a, p c = true) →
      (a ++ b).takeWhile p = a ++ b.takeWhile p := by
  intro a
  induction a with
  | nil => intro b _; rfl
  | cons x xs ih =>
    intro b h
    have hx : p x = true := h x (List.mem_cons_self x xs)
    simp only [List.cons_append, List.takeWhile_cons, hx, if_true]
    rw [ih b (fun c hc => h c (List.mem_cons_of_mem x hc))]

/-- `dropWhile` skips a prefix all of whose characters satisfy the
predicate. -/
theorem dropWhile_append_all {p : Char → Bool} :
    ∀ {a : List Char} (b : List Char), (∀ c ∈ a, p c = true) →
      (a ++ b).dropWhile p = b.dropWhile p := by
  intro a
  induction a with
  | nil => intro b _; rfl
  | cons x xs ih =>
    intro b h
    have hx : p x = true := h x (List.mem_cons_self x xs)
    simp only [List.cons_append, List.dropWhile_cons, hx, if_true]
    exact ih b (fun c hc => h c (List.mem_cons_of_mem x hc))

/-- `takeWhile` stops immediately at a failing head. -/
theorem takeWhile_eq_nil_of_head {p : Char → Bool} {b : List Char}
    (h : ∀ c, b.head? = some c → p c = false) : b.takeWhile p = [] := by
  cases b with
  | nil => rfl
  | cons x xs => simp [List.takeWhile_cons, h x rfl]

/-- `dropWhile` keeps everything from a failing head on. -/
theorem dropWhile_eq_self_of_head {p : Char → Bool} {b : List Char}
    (h : ∀ c, b.head? = some c → p c = false) : b.dropWhile p = b := by
  cases b with
  | nil => rfl
  | cons x xs => simp [List.dropWhile_cons, h x rfl]

/-- A digit is not JS whitespace. -/
theorem not_ws_of_digit {c : Char} (h : isDigitChar c = true) : jsWhitespace c = false := by
  simp only [isDigitChar, Bool.and_eq_true, decide_eq_true_eq] at h
  simp only [jsWhitespace]
  simp only [Bool.or_eq_false_iff, decide_eq_false_iff_not, Bool.and_eq_false_iff,
    decide_eq_false_iff_not, not_le]
  omega

/-- A JS whitespace character is not a colon. -/
theorem ws_ne_colon {c : Char} (h : jsWhitespace c = true) : c ≠ ':' := by
  intro heq
  subst heq
  exact absurd h (by decide)

/-- The last element of a list is a member. -/
theorem mem_of_getLast?_eq : ∀ {l : List Char} {x : Char}, l.getLast? = some x → x ∈ l := by
  intro l
  induction l with
  | nil => intro x h; simp at h
  | cons a t ih =>
    intro x h
    cases t with
    | nil =>
      simp only [List.getLast?_singleton, Option.some.injEq] at h
      simp [h]
    | cons b t' =>
      rw [List.getLast?_cons_cons] at h
      exact List.mem_cons_of_mem a (ih h)

/-- `offsetTrail` on whitespace followed by non-whitespace: the trailing
`(\s+)` group consumes exactly the whitespace run, and scanning resumes right
after it, not at a line start when the run is free of line terminators. -/
theorem offsetTrail_ws (lead : List Char) (base : Nat) {trail rest : List Char}
    (hw : ∀ c ∈ trail, jsWhitespace c = true) (hne : trail ≠ [])
    (hnt : ∀ c ∈ trail, isLineTerminator c = false)
    (hrest : ∀ c, rest.head? = some c → jsWhitespace c = false) :
    offsetTrail lead base (trail ++ rest) =
      some (lead ++ formatCorrected base ++ trail, false, rest) := by
  have htw : (trail ++ rest).takeWhile jsWhitespace = trail := by
    rw [takeWhile_append_all rest hw, takeWhile_eq_nil_of_head hrest, List.append_nil]
  have hglast : lastIsLineTerminator trail = false := by
    unfold lastIsLineTerminator
    cases hg : trail.getLast? with
    | none => rfl
    | some x => exact hnt x (mem_of_getLast?_eq hg)
  unfold offsetTrail
  simp only [htw, if_neg hne, hglast, List.drop_left]

/-- When the text after the second group does not begin with a colon, the
optional third group is not taken. -/
theorem offsetTail_not_colon (off : Nat) (lead : List Char) (p1 p2 : Nat) {rest2 : List Char}
    (h : ∀ c, rest2.head? = some c → c ≠ ':') :
    offsetTail off lead p1 p2 rest2 = offsetTrail lead (p1 * 60 + p2 + off) rest2 := by
  cases rest2 with
  | nil => rfl
  | cons c tl =>
    cases tl with
    | nil => rfl
    | cons e tl2 =>
      cases tl2 with
      | nil => rfl
      | cons f tl3 =>
        have hc : c ≠ ':' := h c rfl
        exact if_neg (fun hcon => hc hcon.1)

/-- When the text after the second group is a colon and two digits, the
optional third group is taken (`HH:MM:SS` reading). -/
theorem offsetTail_colon (off : Nat) (lead : List Char) (p1 p2 : Nat) (d5 d6 : Char)
    (tl : List Char) (h5 : isDigitChar d5 = true) (h6 : isDigitChar d6 = true) :
    offsetTail off lead p1 p2 (':' :: d5 :: d6 :: tl) =
      offsetTrail lead (p1 * 3600 + p2 * 60 + (digitVal d5 * 10 + digitVal d6) + off) tl :=
  if_pos ⟨rfl, h5, h6⟩

/-- A full `correctTimestamps` pattern match on
`lead ++ MM:SS ++ trail ++ rest` (whitespace `lead`, digit groups, non-empty
line-terminator-free whitespace `trail`, `rest` not starting with
whitespace). -/
theorem tryOffsetMatch_mmss (off : Nat) {lead : List Char} (d1 d2 d3 d4 : Char)
    {trail rest : List Char}
    (hlead : ∀ c ∈ lead, jsWhitespace c = true)
    (h1 : isDigitChar d1 = true) (h2 : isDigitChar d2 = true)
    (h3 : isDigitChar d3 = true) (h4 : isDigitChar d4 = true)
    (htrail : ∀ c ∈ trail, jsWhitespace c = true) (hne : trail ≠ [])
    (hnlt : ∀ c ∈ trail, isLineTerminator c = false)
    (hrest : ∀ c, rest.head? = some c → jsWhitespace c = false) :
    tryOffsetMatch off (lead ++ d1 :: d2 :: ':' :: d3 :: d4 :: (trail ++ rest)) =
      some (lead ++ formatCorrected
          ((digitVal d1 * 10 + digitVal d2) * 60 + (digitVal d3 * 10 + digitVal d4) + off) ++
        trail, false, rest) := by
  have hhead : ∀ c, (d1 :: d2 :: ':' :: d3 :: d4 :: (trail ++ rest)).head? = some c →
      jsWhitespace c = false := by
    intro c hc
    injection hc with hc'
    exact hc' ▸ not_ws_of_digit h1
  have htw : (lead ++ d1 :: d2 :: ':' :: d3 :: d4 :: (trail ++ rest)).takeWhile jsWhitespace
      = lead := by
    rw [takeWhile_append_all _ hlead, takeWhile_eq_nil_of_head hhead, List.append_nil]
  have hdw : (lead ++ d1 :: d2 :: ':' :: d3 :: d4 :: (trail ++ rest)).dropWhile jsWhitespace
      = d1 :: d2 :: ':' :: d3 :: d4 :: (trail ++ rest) := by
    rw [dropWhile_append_all _ hlead, dropWhile_eq_self_of_head hhead]
  have htrailhead : ∀ c, (trail ++ rest).head? = some c → c ≠ ':' := by
    obtain ⟨w, t0, rfl⟩ : ∃ w t0, trail = w :: t0 := by
      cases trail with
      | nil => exact absurd rfl hne
      | cons w t0 => exact ⟨w, t0, rfl⟩
    intro c hc
    rw [List.cons_append] at hc
    injection hc with hc'
    exact hc' ▸ ws_ne_colon (htrail w (List.mem_cons_self w t0))
  unfold tryOffsetMatch
  simp only [htw, hdw, if_pos (And.intro h1 h2),
    if_pos (And.intro rfl (And.intro h3 h4))]
  rw [offsetTail_not_colon off lead _ _ htrailhead,
    offsetTrail_ws lead _ htrail hne hnlt hrest]
  simp [h3, h4]

/-- A full `correctTimestamps` pattern match on
`lead ++ HH:MM:SS ++ trail ++ rest` (whitespace `lead`, digit groups,
non-empty line-terminator-free whitespace `trail`, `rest` not starting with
whitespace). -/
theorem tryOffsetMatch_hhmmss (off : Nat) {lead : List Char} (d1 d2 d3 d4 d5 d6 : Char)
    {trail rest : List Char}
    (hlead : ∀ c ∈ lead, jsWhitespace c = true)
    (h1 : isDigitChar d1 = true) (h2 : isDigitChar d2 = true)
    (h3 : isDigitChar d3 = true) (h4 : isDigitChar d4 = true)
    (h5 : isDigitChar d5 = true) (h6 : isDigitChar d6 = true)
    (htrail : ∀ c ∈ trail, jsWhitespace c = true) (hne : trail ≠ [])
    (hnlt : ∀ c ∈ trail, isLineTerminator c = false)
    (hrest : ∀ c, rest.head? = some c → jsWhitespace c = false) :
    tryOffsetMatch off
        (lead ++ d1 :: d2 :: ':' :: d3 :: d4 :: ':' :: d5 :: d6 :: (trail ++ rest)) =
      some (lead ++ formatCorrected
          ((digitVal d1 * 10 + digitVal d2) * 3600 + (digitVal d3 * 10 + digitVal d4) * 60 +
            (digitVal d5 * 10 + digitVal d6) + off) ++
        trail, false, rest) := by
  have hhead : ∀ c,
      (d1 :: d2 :: ':' :: d3 :: d4 :: ':' :: d5 :: d6 :: (trail ++ rest)).head? = some c →
      jsWhitespace c = false := by
    intro c hc
    injection hc with hc'
    exact hc' ▸ not_ws_of_digit h1
  have htw : (lead ++ d1 :: d2 :: ':' :: d3 :: d4 :: ':' :: d5 :: d6 ::
      (trail ++ rest)).takeWhile jsWhitespace = lead := by
    rw [takeWhile_append_all _ hlead, takeWhile_eq_nil_of_head hhead, List.append_nil]
  have hdw : (lead ++ d1 :: d2 :: ':' :: d3 :: d4 :: ':' :: d5 :: d6 ::
      (trail ++ rest)).dropWhile jsWhitespace =
      d1 :: d2 :: ':' :: d3 :: d4 :: ':' :: d5 :: d6 :: (trail ++ rest) := by
    rw [dropWhile_append_all _ hlead, dropWhile_eq_self_of_head hhead]
  unfold tryOffsetMatch
  simp only [htw, hdw, if_pos (And.intro h1 h2),
    if_pos (And.intro rfl (And.intro h3 h4))]
  rw [offsetTail_colon off lead _ _ d5 d6 _ h5 h6,
    offsetTrail_ws lead _ htrail hne hnlt hrest]
  simp [h3, h4]

/-- Unfolding equation of the multiline replace scan. -/
theorem applyOffsetAux_cons (off n : Nat) (atStart : Bool) (c : Char) (cs : List Char) :
    applyOffsetAux off (n + 1) atStart (c :: cs) =
      if atStart then
        match tryOffsetMatch off (c :: cs) with
        | some (out, lastNl, rest) => out ++ applyOffsetAux off n lastNl rest
        | none => c :: applyOffsetAux off n (isLineTerminator c) cs
      else c :: applyOffsetAux off n (isLineTerminator c) cs := rfl

/-- The scan step at a line start where the pattern matches. -/
theorem applyOffsetAux_match (off n : Nat) (c : Char) (cs out rest : List Char) (lastNl : Bool)
    (h : tryOffsetMatch off (c :: cs) = some (out, lastNl, rest)) :
    applyOffsetAux off (n + 1) true (c :: cs) = out ++ applyOffsetAux off n lastNl rest := by
  rw [applyOffsetAux_cons, if_pos rfl, h]

/-- Away from a line start, line-terminator-free text is copied verbatim by
the multiline replace scan: no `^` position ever arises inside it. -/
theorem applyOffsetAux_no_start (off : Nat) :
    ∀ (fuel : Nat) (cs : List Char), (∀ c ∈ cs, isLineTerminator c = false) →
      applyOffsetAux off fuel false cs = cs := by
  intro fuel
  induction fuel with
  | zero => intro cs _; rfl
  | succ n ih =>
    intro cs hcs
    cases cs with
    | nil => rfl
    | cons c cs' =>
      rw [applyOffsetAux_cons, if_neg (by simp), hcs c (List.mem_cons_self c cs'),
        ih cs' (fun q hq => hcs q (List.mem_cons_of_mem c hq))]

/-- **C9, counterexample.**  `correctTimestamps` does not leave the remainder
of a line untouched: the sanitization pass rewrites a malformed timestamp
artifact inside the utterance content (here even for chunk 0), while the
leading timestamp token is unchanged. -/
theorem frame_violation_C9 :
    (correctTimestamps (str "00:10 A: at 00:53:724 end") 0).take 6 =
        (str "00:10 A: at 00:53:724 end").take 6 ∧
      (correctTimestamps (str "00:10 A: at 00:53:724 end") 0).drop 6 ≠
        (str "00:10 A: at 00:53:724 end").drop 6 := by
  constructor <;> decide

/-- **C9, amended.**  Apart from the sanitization pass - which may rewrite
malformed timestamp artifacts anywhere in the text - `correctTimestamps`
changes at most the leading timestamp token of a line: (1) its result is the
sanitized text, either untouched or with only the offset-injecting replace
applied to it; (2) on a line `lead ++ MM:SS ++ trail ++ rest` and (3) on a
line `lead ++ HH:MM:SS ++ trail ++ rest` (a line: no segment contains a
line terminator), the offset-injecting replace rewrites only the timestamp
token, passing `lead`, `trail`, and the remainder `rest` through
unchanged. -/
theorem correct_frame_amended_C9 :
    (∀ (text : List Char) (ms : Nat),
      correctTimestamps text ms = sanitizeTimestamp text ∨
      correctTimestamps text ms = applyOffsetReplace (ms / 1000) (sanitizeTimestamp text)) ∧
    (∀ (off : Nat) (lead : List Char) (d1 d2 d3 d4 : Char) (trail rest : List Char),
      (∀ c ∈ lead, jsWhitespace c = true) → (∀ c ∈ lead, isLineTerminator c = false) →
      isDigitChar d1 = true → isDigitChar d2 = true →
      isDigitChar d3 = true → isDigitChar d4 = true →
      (∀ c ∈ trail, jsWhitespace c = true) → trail ≠ [] →
      (∀ c ∈ trail, isLineTerminator c = false) →
      (∀ c ∈ rest, isLineTerminator c = false) →
      (∀ c, rest.head? = some c → jsWhitespace c = false) →
      applyOffsetReplace off (lead ++ d1 :: d2 :: ':' :: d3 :: d4 :: (trail ++ rest)) =
        lead ++ formatCorrected
            ((digitVal d1 * 10 + digitVal d2) * 60 + (digitVal d3 * 10 + digitVal d4) + off) ++
          trail ++ rest) ∧
    (∀ (off : Nat) (lead : List Char) (d1 d2 d3 d4 d5 d6 : Char) (trail rest : List Char),
      (∀ c ∈ lead, jsWhitespace c = true) → (∀ c ∈ lead, isLineTerminator c = false) →
      isDigitChar d1 = true → isDigitChar d2 = true →
      isDigitChar d3 = true → isDigitChar d4 = true →
      isDigitChar d5 = true → isDigitChar d6 = true →
      (∀ c ∈ trail, jsWhitespace c = true) → trail ≠ [] →
      (∀ c ∈ trail, isLineTerminator c = false) →
      (∀ c ∈ rest, isLineTerminator c = false) →
      (∀ c, rest.head? = some c → jsWhitespace c = false) →
      applyOffsetReplace off
          (lead ++ d1 :: d2 :: ':' :: d3 :: d4 :: ':' :: d5 :: d6 :: (trail ++ rest)) =
        lead ++ formatCorrected
            ((digitVal d1 * 10 + digitVal d2) * 3600 + (digitVal d3 * 10 + digitVal d4) * 60 +
              (digitVal d5 * 10 + digitVal d6) + off) ++
          trail ++ rest) := by
  refine ⟨?_, ?_, ?_⟩
  · intro text ms
    unfold correctTimestamps
    by_cases hz : ms / 1000 = 0
    · simp [hz]
    · simp only [if_neg hz]
      by_cases hd : detectIfAlreadyCorrected (sanitizeTimestamp text) ms = true
      · simp [hd]
      · simp [hd]
  · intro off lead d1 d2 d3 d4 trail rest hlead hnll h1 h2 h3 h4 htrail hne hnlt hnlr hrest
    have hmatch := tryOffsetMatch_mmss off d1 d2 d3 d4 hlead h1 h2 h3 h4 htrail hne hnlt hrest
    unfold applyOffsetReplace
    obtain ⟨c, cs, hcons⟩ :
        ∃ c cs, lead ++ d1 :: d2 :: ':' :: d3 :: d4 :: (trail ++ rest) = c :: cs := by
      cases lead with
      | nil => exact ⟨_, _, rfl⟩
      | cons x xs => exact ⟨_, _, rfl⟩
    rw [hcons, List.length_cons,
      applyOffsetAux_match off cs.length c cs _ _ _ (hcons ▸ hmatch),
      applyOffsetAux_no_start off cs.length rest hnlr]
  · intro off lead d1 d2 d3 d4 d5 d6 trail rest hlead hnll h1 h2 h3 h4 h5 h6 htrail hne
      hnlt hnlr hrest
    have hmatch :=
      tryOffsetMatch_hhmmss off d1 d2 d3 d4 d5 d6 hlead h1 h2 h3 h4 h5 h6 htrail hne hnlt hrest
    unfold applyOffsetReplace
    obtain ⟨c, cs, hcons⟩ :
        ∃ c cs, lead ++ d1 :: d2 :: ':' :: d3 :: d4 :: ':' :: d5 :: d6 :: (trail ++ rest) =
          c :: cs := by
      cases lead with
      | nil => exact ⟨_, _, rfl⟩
      | cons x xs => exact ⟨_, _, rfl⟩
    rw [hcons, List.length_cons,
      applyOffsetAux_match off cs.length c cs _ _ _ (hcons ▸ hmatch),
      applyOffsetAux_no_start off cs.length rest hnlr]

/-- Witness for `correct_frame_amended_C9`, clauses (2) and (3): the lines
`05:09 A: x` and `01:02:03 B: y` with a one-hour offset. -/
theorem correct_frame_amended_C9_witness :
    (applyOffsetReplace 3600
        ([] ++ '0' :: '5' :: ':' :: '0' :: '9' :: ([' '] ++ str "A: x")) =
      [] ++ formatCorrected
          ((digitVal '0' * 10 + digitVal '5') * 60 + (digitVal '0' * 10 + digitVal '9') + 3600) ++
        [' '] ++ str "A: x") ∧
    (applyOffsetReplace 3600
        ([] ++ '0' :: '1' :: ':' :: '0' :: '2' :: ':' :: '0' :: '3' :: ([' '] ++ str "B: y")) =
      [] ++ formatCorrected
          ((digitVal '0' * 10 + digitVal '1') * 3600 + (digitVal '0' * 10 + digitVal '2') * 60 +
            (digitVal '0' * 10 + digitVal '3') + 3600) ++
        [' '] ++ str "B: y") :=
  ⟨correct_frame_amended_C9.2.1 3600 [] '0' '5' '0' '9' [' '] (str "A: x")
    (by simp) (by simp) (by decide) (by decide) (by decide) (by decide)
    (by decide) (by decide) (by decide) (by decide)
    (by intro c hc; injection hc with hc'; subst hc'; decide),
   correct_frame_amended_C9.2.2 3600 [] '0' '1' '0' '2' '0' '3' [' '] (str "B: y")
    (by simp) (by simp) (by decide) (by decide) (by decide) (by decide)
    (by decide) (by decide) (by decide) (by decide) (by decide) (by decide)
    (by intro c hc; injection hc with hc'; subst hc'; decide)⟩
